import Mathlib

/-!
Shallow embedding of the catalog/cart core of the binFawzi-store repository.

Sources embedded here:
- `src/app/core/products/models/index.ts` (Product, ProductFilters, LoadingState, ApiError)
- `src/app/core/products/services/product.service.ts` (ProductService)
- `src/app/core/services/cart.service.ts` (CartService)
- `src/app/features/products/pages/products-page.ts` (products$ stream composition)

Modelling conventions:
- JavaScript `number` is modelled as `ℚ` (exact rational arithmetic; IEEE-754
  rounding is outside the scope of this development, and the spec states all
  numeric examples in exact decimals).
- JavaScript truthiness on optional values is modelled explicitly
  (`undefined`/`""`/`0` are falsy).
- RxJS operators over time (`debounceTime`, `distinctUntilChanged`,
  `switchMap`) are modelled as pure functions over lists of timestamped
  emissions, in arrival order.
- `Array.prototype.sort` (guaranteed stable by the ECMAScript spec) with the
  source's comparator is modelled as a stable insertion sort keyed by the
  comparator's key; for a consistent comparator the stable sorted result is
  unique, so any stable sort is a faithful embedding.
- Object identity (JavaScript `===` on objects, used by the default
  `distinctUntilChanged` comparator) is modelled by tagging each emitted
  object with an allocation reference number.
-/

namespace BinFawzi

/-- Rating record from `product.model.ts` (`ProductRating`). -/
structure ProductRating where
  rate : ℚ
  count : ℕ
deriving DecidableEq

/-- Product record from `product.model.ts` (`Product`). -/
structure Product where
  id : ℕ
  title : String
  price : ℚ
  description : String
  category : String
  image : String
  rating : Option ProductRating
deriving DecidableEq

/-- Sort field union type `'price' | 'title' | 'rating'` from `ProductFilters.sortBy`. -/
inductive SortField where
  | price
  | title
  | rating
deriving DecidableEq

/-- Sort direction union type `'asc' | 'desc'` from `ProductFilters.sortOrder`. -/
inductive SortOrder where
  | asc
  | desc
deriving DecidableEq

/-- Filter criteria record from `product.model.ts` (`ProductFilters`).
All fields are optional in the source; `none` models `undefined`. -/
structure ProductFilters where
  searchTerm : Option String := none
  category : Option String := none
  minPrice : Option ℚ := none
  maxPrice : Option ℚ := none
  limit : Option ℚ := none
  sortBy : Option SortField := none
  sortOrder : Option SortOrder := none
deriving DecidableEq

/-- Loading state enum from `product.model.ts` (`LoadingState`). -/
inductive LoadingState where
  | IDLE
  | LOADING
  | SUCCESS
  | ERROR
deriving DecidableEq

/-- Error code strings assigned by `ProductService.handleError`. -/
inductive ErrorCode where
  | NETWORK_ERROR
  | NOT_FOUND
  | SERVER_ERROR
  | UNKNOWN_ERROR
deriving DecidableEq

/-- Error record from `product.model.ts` (`ApiError`); `details` is never set
by the service and is omitted. -/
structure ApiError where
  message : String
  status : Option ℕ
  code : ErrorCode
deriving DecidableEq

/-! ### JavaScript semantics helpers -/

/-- JavaScript truthiness of an optional string (`undefined` and `""` are falsy). -/
def strTruthy : Option String → Bool
  | none => false
  | some s => !(s == "")

/-- JavaScript truthiness of an optional number (`undefined` and `0` are falsy). -/
def numTruthy : Option ℚ → Bool
  | none => false
  | some q => !(q == 0)

/-- JavaScript `String.prototype.toLowerCase` (ASCII-adequate embedding). -/
def jsToLower (s : String) : String :=
  String.mk (s.data.map Char.toLower)

/-- JavaScript `String.prototype.trim`: strip leading and trailing
whitespace. -/
def jsTrim (s : String) : String :=
  String.mk (((s.data.dropWhile Char.isWhitespace).reverse.dropWhile
    Char.isWhitespace).reverse)

/-- Prefix test on character lists, auxiliary to `jsIncludes`. -/
def charHasPrefix : List Char → List Char → Bool
  | [], _ => true
  | _ :: _, [] => false
  | c :: cs, d :: ds => c == d && charHasPrefix cs ds

/-- Substring occurrence test on character lists, auxiliary to `jsIncludes`. -/
def charHasInfix (needle : List Char) : List Char → Bool
  | [] => needle.isEmpty
  | d :: ds => charHasPrefix needle (d :: ds) || charHasInfix needle ds

/-- JavaScript `String.prototype.includes`: `jsIncludes s sub` is `true` iff
`sub` occurs as a contiguous substring of `s`. -/
def jsIncludes (s sub : String) : Bool :=
  charHasInfix sub.toList s.toList

/-- The empty string occurs in every string, as in JavaScript `s.includes("")`. -/
theorem jsIncludes_empty (s : String) : jsIncludes s "" = true := by
  show charHasInfix [] s.toList = true
  cases s.toList with
  | nil => rfl
  | cons d ds => rfl

/-! ### Stable sort by key

`Array.prototype.sort(cmp)` with the comparator of
`ProductService.sortProducts` is a stable sort with respect to the total
preorder `cmp a b ≤ 0`.  For the ascending direction the comparator of the
source returns `-1/0/1` by comparing a key (`price`, lower-cased `title`, or
`rating.rate` defaulted to `0`), so `cmp a b ≤ 0 ↔ key a ≤ key b`; the
descending direction flips the comparison.  We embed it with Mathlib's
`List.insertionSort`, which is stable, inserting by `key a ≤ key b`
(descending instantiated via `OrderDual`). -/

/-- Comparator relation `key a ≤ key b` induced by a sort key. -/
def keyLe {α β : Type} [LinearOrder β] (key : α → β) (a b : α) : Prop :=
  key a ≤ key b

instance {α β : Type} [LinearOrder β] (key : α → β) : DecidableRel (keyLe key) :=
  fun a b => inferInstanceAs (Decidable (key a ≤ key b))

/-- Stable sort of a list by a key into a linear order. -/
def sortByKey {α β : Type} [LinearOrder β] (key : α → β) (l : List α) : List α :=
  List.insertionSort (keyLe key) l

theorem sortByKey_perm {α β : Type} [LinearOrder β] (key : α → β) (l : List α) :
    List.Perm (sortByKey key l) l :=
  List.perm_insertionSort _ _

theorem sortByKey_sorted {α β : Type} [LinearOrder β] (key : α → β) (l : List α) :
    List.Sorted (keyLe key) (sortByKey key l) := by
  haveI : IsTotal α (keyLe key) := ⟨fun a b => le_total (key a) (key b)⟩
  haveI : IsTrans α (keyLe key) := ⟨fun _ _ _ hab hbc => le_trans hab hbc⟩
  exact List.sorted_insertionSort _ _

theorem filter_orderedInsert {α β : Type} [LinearOrder β] (key : α → β) (k : β)
    (x : α) (l : List α) :
    (List.orderedInsert (keyLe key) x l).filter (fun y => decide (key y = k)) =
      if key x = k then x :: l.filter (fun y => decide (key y = k))
      else l.filter (fun y => decide (key y = k)) := by
  induction l with
  | nil =>
    by_cases hx : key x = k <;> simp [List.orderedInsert, List.filter, hx]
  | cons y ys ih =>
    by_cases h : keyLe key x y
    · by_cases hx : key x = k <;> simp [List.orderedInsert, h, List.filter, hx]
    · have hlt : key y < key x := lt_of_not_le h
      by_cases hx : key x = k
      · have hy : ¬ key y = k := by
          intro hyk
          exact absurd (hyk.trans hx.symm ▸ hlt) (lt_irrefl _)
        simp [List.orderedInsert, h, List.filter, hx, hy, ih]
      · by_cases hy : key y = k <;> simp [List.orderedInsert, h, List.filter, hx, hy, ih]

/-- Stability of `sortByKey`: the subsequence of elements having any fixed key
is unchanged, i.e. ties preserve their prior relative order. -/
theorem filter_sortByKey {α β : Type} [LinearOrder β] (key : α → β) (k : β)
    (l : List α) :
    (sortByKey key l).filter (fun y => decide (key y = k)) =
      l.filter (fun y => decide (key y = k)) := by
  induction l with
  | nil => rfl
  | cons x xs ih =>
    simp only [sortByKey] at ih
    show (List.orderedInsert (keyLe key) x (List.insertionSort (keyLe key) xs)).filter _ = _
    rw [filter_orderedInsert]
    by_cases hx : key x = k <;> simp [hx, List.filter, ih]

/-! ### ProductService: client-side filtering and sorting
Embeds `applyClientSideFilters` and `sortProducts` of
`product.service.ts` (lines 241-313). -/

/-- Sort key for `sortBy: 'title'`: the lower-cased title, as in the source
comparator `a.title.toLowerCase()`. -/
def titleKey (p : Product) : String :=
  jsToLower p.title

/-- Sort key for `sortBy: 'rating'`: `a.rating?.rate || 0` (a missing rating
defaults to `0`; a present rating of `0` is also `0`). -/
def ratingKey (p : Product) : ℚ :=
  match p.rating with
  | some r => r.rate
  | none => 0

/-- Embedding of `ProductService.sortProducts` (lines 284-313): a stable sort
(`Array.prototype.sort` is stable) whose comparator compares `price`,
lower-cased `title`, or `rating.rate` defaulted to `0`, ascending or
descending.  The descending direction is instantiated through `OrderDual`. -/
def sortProducts (products : List Product) : SortField → SortOrder → List Product
  | .price, .asc => sortByKey (fun p => p.price) products
  | .price, .desc => sortByKey (fun p => OrderDual.toDual p.price) products
  | .title, .asc => sortByKey titleKey products
  | .title, .desc => sortByKey (fun p => OrderDual.toDual (titleKey p)) products
  | .rating, .asc => sortByKey ratingKey products
  | .rating, .desc => sortByKey (fun p => OrderDual.toDual (ratingKey p)) products

/-- Search predicate of `applyClientSideFilters`: case-insensitive substring
match of the search term against `title` or `description`. -/
def matchesSearch (searchLower : String) (p : Product) : Bool :=
  jsIncludes (jsToLower p.title) searchLower || jsIncludes (jsToLower p.description) searchLower

/-- Embedding of `ProductService.applyClientSideFilters` (lines 241-268),
step by step in source order: truthiness-guarded search filter, `!==
undefined`-guarded price bounds, then sort when `sortBy` is present with
`sortOrder || 'asc'`. -/
def applyClientSideFilters (products : List Product) (filters : ProductFilters) :
    List Product :=
  let f1 :=
    if strTruthy filters.searchTerm then
      let searchLower := jsToLower (filters.searchTerm.getD "")
      products.filter (fun p => matchesSearch searchLower p)
    else products
  let f2 :=
    match filters.minPrice with
    | some m => f1.filter (fun p => decide (m ≤ p.price))
    | none => f1
  let f3 :=
    match filters.maxPrice with
    | some m => f2.filter (fun p => decide (p.price ≤ m))
    | none => f2
  match filters.sortBy with
  | some sb => sortProducts f3 sb (filters.sortOrder.getD .asc)
  | none => f3

/-- Server-side source selected by `getFilteredProducts`. -/
inductive SourceCall where
  | byCategory (category : String)
  | allLimited (limit : ℚ)
  | allUnlimited
deriving DecidableEq

/-- Embedding of the source selection in `ProductService.getFilteredProducts`
(lines 210-226): `if (category) ... else if (limit) ... else ...`, with
JavaScript truthiness on both guards. -/
def chooseSource (filters : ProductFilters) : SourceCall :=
  if strTruthy filters.category then .byCategory (filters.category.getD "")
  else if numTruthy filters.limit then .allLimited (filters.limit.getD 0)
  else .allUnlimited

/-- Modelled from the spec's words (for refinement comparison only): the
source-selection rule "fetchByCategory(category) if category is set, else
fetchAll(limit) if limit is set, else fetchAll()", reading "set" as the
optional field being present. -/
def specSourceRule (filters : ProductFilters) : SourceCall :=
  match filters.category with
  | some c => .byCategory c
  | none =>
    match filters.limit with
    | some l => .allLimited l
    | none => .allUnlimited

/-- Modelled from the spec's words (for refinement comparison only):
client-side refinement in the fixed order (1) case-insensitive substring
filter on title or description against `searchTerm` if present, (2) inclusive
`minPrice`/`maxPrice` bounds if present, (3) stable sort by `sortBy` in
`sortOrder` direction (default ascending). -/
def specRefine (products : List Product) (filters : ProductFilters) : List Product :=
  let s1 :=
    match filters.searchTerm with
    | some s => products.filter (fun p => matchesSearch (jsToLower s) p)
    | none => products
  let s2 :=
    match filters.minPrice with
    | some m => s1.filter (fun p => decide (m ≤ p.price))
    | none => s1
  let s3 :=
    match filters.maxPrice with
    | some m => s2.filter (fun p => decide (p.price ≤ m))
    | none => s2
  match filters.sortBy with
  | some sb => sortProducts s3 sb (filters.sortOrder.getD .asc)
  | none => s3

theorem matchesSearch_empty (p : Product) : matchesSearch (jsToLower "") p = true := by
  have h : jsToLower "" = "" := rfl
  simp [matchesSearch, h, jsIncludes_empty]

theorem applyClientSideFilters_eq_specRefine (products : List Product)
    (filters : ProductFilters) :
    applyClientSideFilters products filters = specRefine products filters := by
  unfold applyClientSideFilters specRefine
  cases hs : filters.searchTerm with
  | none => simp [strTruthy, hs]
  | some s =>
    by_cases hempty : s = ""
    · subst hempty
      simp [strTruthy, hs, matchesSearch_empty]
    · simp [strTruthy, hs, hempty]

/-! ### ProductService: caching, loading/error broadcasts, error classification
Embeds the stateful part of `product.service.ts`.  An RxJS observable handle
is modelled by the numeric id of the network request backing it; the shared
`BehaviorSubject`s become plain state fields. -/

/-- Network request issued by the service, identified by its URL shape. -/
inductive Request where
  | allProducts (limit : Option ℚ)
  | productById (id : ℕ)
  | categories
  | productsByCategory (category : String)
deriving DecidableEq

/-- State of `ProductService`: the two `BehaviorSubject`s, the two cache
fields, a counter handing out ids for fresh requests, and the log of network
requests issued so far (newest last). -/
structure PSState where
  loading : LoadingState
  error : Option ApiError
  productsCache : Option ℕ
  categoriesCache : Option ℕ
  nextReq : ℕ
  requests : List Request
deriving DecidableEq

/-- Embedding of `ProductService.getProducts` (lines 73-100).  Returns the id
of the observable handed to the caller together with the updated state:
`if (this.productsCache$ && !limit) return this.productsCache$;` then a fresh
request is issued (URL carries the limit only when truthy), `loading` is set,
and the result is cached only when `limit` is falsy. -/
def getProducts (limit : Option ℚ) (s : PSState) : ℕ × PSState :=
  match s.productsCache, numTruthy limit with
  | some c, false => (c, s)
  | _, _ =>
    let urlLimit := if numTruthy limit then limit else none
    let r := s.nextReq
    (r, { s with
            loading := .LOADING
            nextReq := r + 1
            requests := s.requests ++ [.allProducts urlLimit]
            productsCache := if numTruthy limit then s.productsCache else some r })

/-- Embedding of `ProductService.getProductById` (lines 113-123): always a
fresh, uncached request, setting `loading`. -/
def getProductById (id : ℕ) (s : PSState) : ℕ × PSState :=
  (s.nextReq, { s with
                  loading := .LOADING
                  nextReq := s.nextReq + 1
                  requests := s.requests ++ [.productById id] })

/-- Embedding of `ProductService.getCategories` (lines 135-152): cached with
the same discipline as the unlimited `getProducts`. -/
def getCategories (s : PSState) : ℕ × PSState :=
  match s.categoriesCache with
  | some c => (c, s)
  | none =>
    let r := s.nextReq
    (r, { s with
            loading := .LOADING
            nextReq := r + 1
            requests := s.requests ++ [.categories]
            categoriesCache := some r })

/-- Embedding of `ProductService.getProductsByCategory` (lines 165-175):
always a fresh, uncached request, setting `loading`. -/
def getProductsByCategory (category : String) (s : PSState) : ℕ × PSState :=
  (s.nextReq, { s with
                  loading := .LOADING
                  nextReq := s.nextReq + 1
                  requests := s.requests ++ [.productsByCategory category] })

/-- Embedding of `ProductService.clearCache` (lines 323-326). -/
def clearCache (s : PSState) : PSState :=
  { s with productsCache := none, categoriesCache := none }

/-- Shape of an `HttpErrorResponse` as inspected by `handleError`:
either `error.error instanceof ErrorEvent` (client/network failure) or a
backend response with a status and an optional `error.message` body field. -/
inductive HttpFailure where
  | clientEvent
  | response (status : ℕ) (serverMessage : Option String)
deriving DecidableEq

/-- Embedding of `ProductService.handleError` classification (lines 368-407). -/
def handleError : HttpFailure → ApiError
  | .clientEvent =>
    { message := "Network error occurred. Please check your connection."
      status := none
      code := .NETWORK_ERROR }
  | .response 404 _ =>
    { message := "Product not found.", status := some 404, code := .NOT_FOUND }
  | .response 500 _ =>
    { message := "Server error. Please try again later."
      status := some 500
      code := .SERVER_ERROR }
  | .response st msg =>
    { message := msg.getD "An unexpected error occurred."
      status := some st
      code := .UNKNOWN_ERROR }

/-- Resolution of an in-flight fetch, shared by all four operations (each
pipes through the same `tap`/`catchError`): on success `loading := SUCCESS`
and the error broadcast is cleared, the payload flowing to the caller; on
failure `handleError` sets `loading := ERROR`, publishes the classified
error, and rethrows it to the caller (`throwError`). -/
def resolveFetch {α : Type} (s : PSState) :
    Except HttpFailure α → PSState × Except ApiError α
  | .ok a => ({ s with loading := .SUCCESS, error := none }, .ok a)
  | .error f =>
    ({ s with loading := .ERROR, error := some (handleError f) },
      .error (handleError f))

/-! ### CartService
Embeds `cart.service.ts`.  Durable storage (`localStorage` under the fixed
key `binfawzi_cart`) is modelled as either unavailable (operations throw) or
a stored blob that is absent, corrupt (unparseable JSON), or a serialized
item list. -/

/-- Cart line item from `cart.service.ts` (`CartItem`). -/
structure CartItem where
  id : ℕ
  product : Product
  quantity : ℚ
  lineTotal : ℚ
deriving DecidableEq

/-- Cart summary record from `cart.service.ts` (`CartSummary`). -/
structure CartSummary where
  subtotal : ℚ
  shipping : ℚ
  total : ℚ
  itemCount : ℚ
deriving DecidableEq

/-- Content of the durable-storage slot for the cart key. -/
inductive CartBlob where
  | corrupt
  | data (items : List CartItem)
deriving DecidableEq

/-- Durable storage as the cart sees it: `unavailable` models storage whose
`getItem`/`setItem` throw (disabled storage, quota); otherwise the slot holds
`none` (no saved cart) or a blob. -/
inductive StorageState where
  | unavailable
  | stored (blob : Option CartBlob)
deriving DecidableEq

/-- State owned by `CartService`: the items signal plus durable storage. -/
structure CartState where
  items : List CartItem
  storage : StorageState
deriving DecidableEq

/-- Embedding of `CartService.saveCartToStorage` (lines 138-144): serializes
the current items under the cart key; a storage failure is caught and
ignored. -/
def saveCartToStorage (s : CartState) : CartState :=
  match s.storage with
  | .unavailable => s
  | .stored _ => { s with storage := .stored (some (.data s.items)) }

/-- Embedding of `CartService.loadCartFromStorage` (lines 149-164): reads the
saved cart if present, recomputing every `lineTotal` as
`item.product.price * item.quantity`; any failure (storage unavailable,
corrupt JSON) falls back to `[]` via the `catch`. -/
def loadCartFromStorage : StorageState → List CartItem
  | .unavailable => []
  | .stored none => []
  | .stored (some .corrupt) => []
  | .stored (some (.data l)) =>
    l.map (fun it => { it with lineTotal := it.product.price * it.quantity })

/-- Construction of the cart store: the items signal is initialized from
durable storage (`cartItems = signal(this.loadCartFromStorage())`). -/
def initCart (storage : StorageState) : CartState :=
  { items := loadCartFromStorage storage, storage := storage }

/-- Update applied by `addToCart` to the first item whose id matches
(`findIndex`): quantity increased, lineTotal recomputed from the price of the
product passed to `addToCart`, stored product snapshot left unchanged. -/
def bumpItem (p : Product) (quantity : ℚ) (it : CartItem) : CartItem :=
  { it with
      quantity := it.quantity + quantity
      lineTotal := (it.quantity + quantity) * p.price }

/-- First-match update over the item list, auxiliary to `addToCart`; `none`
when no item has the product's id (`findIndex` returned `-1`). -/
def updateFirst (p : Product) (quantity : ℚ) : List CartItem → Option (List CartItem)
  | [] => none
  | it :: rest =>
    if it.id = p.id then some (bumpItem p quantity it :: rest)
    else (updateFirst p quantity rest).map (fun l => it :: l)

/-- Embedding of `CartService.addToCart` (lines 50-75): update the existing
item for `product.id` if any, otherwise append a new item with
`lineTotal = product.price * quantity`; then persist. -/
def addToCart (s : CartState) (p : Product) (quantity : ℚ) : CartState :=
  let items' :=
    match updateFirst p quantity s.items with
    | some l => l
    | none => s.items ++ [{ id := p.id, product := p, quantity := quantity,
                            lineTotal := p.price * quantity }]
  saveCartToStorage { s with items := items' }

/-- Embedding of `CartService.removeFromCart` (lines 105-110). -/
def removeFromCart (s : CartState) (productId : ℕ) : CartState :=
  saveCartToStorage { s with items := s.items.filter (fun it => !(it.id == productId)) }

/-- Embedding of `CartService.updateQuantity` (lines 80-100): a quantity
`≤ 0` removes the item; otherwise every item with the id (at most one under
the invariant) gets the new quantity with `lineTotal` recomputed from the
stored product's price; then persist. -/
def updateQuantity (s : CartState) (productId : ℕ) (quantity : ℚ) : CartState :=
  if quantity ≤ 0 then removeFromCart s productId
  else
    saveCartToStorage
      { s with
          items := s.items.map (fun it =>
            if it.id = productId then
              { it with quantity := quantity, lineTotal := it.product.price * quantity }
            else it) }

/-- Embedding of `CartService.clearCart` (lines 115-118). -/
def clearCart (s : CartState) : CartState :=
  saveCartToStorage { s with items := [] }

/-- Embedding of the `summary` computed signal (lines 30-43): two `reduce`
folds over the current items plus the fixed free-shipping policy. -/
def summary (items : List CartItem) : CartSummary :=
  let subtotal := items.foldl (fun acc it => acc + it.lineTotal) 0
  let shipping : ℚ := 0
  let total := subtotal + shipping
  let itemCount := items.foldl (fun acc it => acc + it.quantity) 0
  { subtotal := subtotal, shipping := shipping, total := total, itemCount := itemCount }

/-! ### Products page: the `products$` criteria pipeline
Embeds the form branch of `products-page.ts` lines 100-122:
`valueChanges.pipe(startWith(...), debounceTime(300), distinctUntilChanged(),
tap(... filtersSubject.next(filters)))`, feeding `switchMap` into
`getFilteredProducts`.  Emissions are timestamped; each carries the
allocation reference of the (always fresh) form-value object, since the
default `distinctUntilChanged` comparator is JavaScript `===`. -/

/-- Raw value of `filtersForm` (`searchTerm`, `selectedCategory`, `sortBy`,
`sortOrder`, all strings, empty when unset). -/
structure FormValue where
  searchTerm : String
  selectedCategory : String
  sortBy : String
  sortOrder : String
deriving DecidableEq

/-- Translation of a form value into `ProductFilters` performed inside the
`tap` (lines 106-115): `searchTerm?.trim() || undefined`,
`selectedCategory || undefined`, `sortBy || undefined`,
`sortOrder || 'asc'`. -/
def buildFilters (v : FormValue) : ProductFilters :=
  { searchTerm := if jsTrim v.searchTerm = "" then none else some (jsTrim v.searchTerm)
    category := if v.selectedCategory = "" then none else some v.selectedCategory
    minPrice := none
    maxPrice := none
    limit := none
    sortBy :=
      match v.sortBy with
      | "price" => some .price
      | "title" => some .title
      | "rating" => some .rating
      | _ => none
    sortOrder := some (if v.sortOrder = "desc" then .desc else .asc) }

/-- Timestamped form emission; `ref` is the identity of the emitted object
(each `valueChanges` emission is a freshly built object, so refs of distinct
emissions differ in the real system; the model leaves them arbitrary). -/
structure FormEv where
  t : ℕ
  ref : ℕ
  val : FormValue
deriving DecidableEq

/-- Trailing-edge `debounceTime d` over timestamped emissions in arrival
order: an emission is forwarded, `d` later, exactly when no further emission
arrives strictly within its window; otherwise the pending timer is
cancelled and restarted. -/
def debounceTimeF (d : ℕ) : List FormEv → List FormEv
  | [] => []
  | e :: rest =>
    match rest with
    | [] => [{ e with t := e.t + d }]
    | e2 :: _ =>
      if e2.t < e.t + d then debounceTimeF d rest
      else { e with t := e.t + d } :: debounceTimeF d rest

/-- Auxiliary to `distinctRefF`: drop emissions whose object reference equals
the previously forwarded one. -/
def dedupRefAux (prev : FormEv) : List FormEv → List FormEv
  | [] => []
  | e :: rest =>
    if e.ref == prev.ref then dedupRefAux prev rest
    else e :: dedupRefAux e rest

/-- Embedding of `distinctUntilChanged()` with its default comparator
(JavaScript `===`, i.e. object identity for the form-value objects): an
emission is suppressed exactly when its reference equals the previous
forwarded emission's reference. -/
def distinctRefF : List FormEv → List FormEv
  | [] => []
  | e :: rest => e :: dedupRefAux e rest

/-- Emissions accepted by the criteria pipeline (post debounce, post
distinct); each accepted emission runs the `tap` and drives the downstream
`switchMap` fetch. -/
def acceptedEvents (input : List FormEv) : List FormEv :=
  distinctRefF (debounceTimeF 300 input)

/-- Criteria values of the downstream `getFilteredProducts` fetches triggered
by an input sequence, in order. -/
def downstreamFetches (input : List FormEv) : List ProductFilters :=
  (acceptedEvents input).map (fun e => buildFilters e.val)

/-! ### Switch-latest semantics of the `switchMap` stage
An accepted criteria emission at time `t` starts a fetch taking `dur`;
`switchMap` unsubscribes the in-flight inner fetch whenever a new outer
emission arrives, so the fetch started by emission `i` delivers its result
exactly when it resolves strictly before emission `i+1` arrives. -/

/-- Outer emission feeding `switchMap`: arrival time and fetch duration. -/
structure FetchEv where
  t : ℕ
  dur : ℕ
deriving DecidableEq

/-- Indices (numbered from `i`) of the emissions whose fetch results reach
the output of `switchMap`. -/
def switchSurvivors (i : ℕ) : List FetchEv → List ℕ
  | [] => []
  | e :: rest =>
    match rest with
    | [] => [i]
    | e2 :: _ =>
      if e.t + e.dur < e2.t then i :: switchSurvivors (i + 1) rest
      else switchSurvivors (i + 1) rest

/-! ### Heap model for the mutation claim
`applyClientSideFilters` receives the array held by the products cache;
`[...products]` copies it, each `.filter` allocates a fresh array, and
`sortProducts` sorts **in place** the array it is handed.  The heap maps
array ids to contents; ids below `next` are allocated. -/

/-- Explicit array heap: allocation counter and contents per array id. -/
structure Heap where
  next : ℕ
  mem : ℕ → List Product

/-- Allocation of a fresh array holding `v`. -/
def halloc (h : Heap) (v : List Product) : Heap × ℕ :=
  (⟨h.next + 1, fun i => if i = h.next then v else h.mem i⟩, h.next)

/-- In-place overwrite of array `i` (used by the in-place `sort`). -/
def hset (h : Heap) (i : ℕ) (v : List Product) : Heap :=
  ⟨h.next, fun j => if j = i then v else h.mem j⟩

/-- Heap-level embedding of `applyClientSideFilters` applied to the array
`src` (e.g. the one replayed by the unlimited-products cache): copy `src`,
run each applicable filter into a fresh array, and sort the current array in
place when `sortBy` is present.  Returns the final heap and the id of the
returned array. -/
def applyClientSideFiltersHeap (h : Heap) (src : ℕ) (filters : ProductFilters) :
    Heap × ℕ :=
  let v0 := h.mem src
  let a0 := halloc h v0
  let s1 : Heap × ℕ × List Product :=
    if strTruthy filters.searchTerm then
      let searchLower := jsToLower (filters.searchTerm.getD "")
      let v1 := v0.filter (fun p => matchesSearch searchLower p)
      let a1 := halloc a0.1 v1
      (a1.1, a1.2, v1)
    else (a0.1, a0.2, v0)
  let s2 : Heap × ℕ × List Product :=
    match filters.minPrice with
    | some m =>
      let v2 := s1.2.2.filter (fun p => decide (m ≤ p.price))
      let a2 := halloc s1.1 v2
      (a2.1, a2.2, v2)
    | none => s1
  let s3 : Heap × ℕ × List Product :=
    match filters.maxPrice with
    | some m =>
      let v3 := s2.2.2.filter (fun p => decide (p.price ≤ m))
      let a3 := halloc s2.1 v3
      (a3.1, a3.2, v3)
    | none => s2
  match filters.sortBy with
  | some sb =>
    (hset s3.1 s3.2.1 (sortProducts s3.2.2 sb (filters.sortOrder.getD .asc)), s3.2.1)
  | none => (s3.1, s3.2.1)

/-! ### Cart invariants and helper lemmas -/

/-- Invariant of the cart item collection (spec §3, CartItem): ids unique,
quantities integral and at least 1, and every `lineTotal` derived from the
stored product snapshot's price. -/
def CartInv (items : List CartItem) : Prop :=
  (items.map (fun it => it.id)).Nodup ∧
  ∀ it ∈ items, it.quantity.den = 1 ∧ 1 ≤ it.quantity ∧
    it.lineTotal = it.product.price * it.quantity

instance (items : List CartItem) : Decidable (CartInv items) := by
  unfold CartInv
  infer_instance

theorem den_one_add {a b : ℚ} (ha : a.den = 1) (hb : b.den = 1) : (a + b).den = 1 := by
  rw [← Rat.coe_int_num_of_den_eq_one ha, ← Rat.coe_int_num_of_den_eq_one hb,
    ← Int.cast_add]
  exact Rat.den_intCast _

theorem den_one_pos_one_le {q : ℚ} (hden : q.den = 1) (hpos : 0 < q) : 1 ≤ q := by
  rw [← Rat.coe_int_num_of_den_eq_one hden] at hpos ⊢
  have h1 : 0 < q.num := by exact_mod_cast hpos
  have h2 : 1 ≤ q.num := h1
  exact_mod_cast h2

theorem updateFirst_none (p : Product) (q : ℚ) :
    ∀ items : List CartItem, (∀ it ∈ items, it.id ≠ p.id) →
      updateFirst p q items = none := by
  intro items
  induction items with
  | nil => intro _; rfl
  | cons it rest ih =>
    intro h
    have hid : it.id ≠ p.id := h it (by simp)
    simp [updateFirst, hid, ih (fun x hx => h x (by simp [hx]))]

theorem updateFirst_ids (p : Product) (q : ℚ) :
    ∀ items l : List CartItem, updateFirst p q items = some l →
      l.map (fun it => it.id) = items.map (fun it => it.id) := by
  intro items
  induction items with
  | nil => intro l h; simp [updateFirst] at h
  | cons it rest ih =>
    intro l h
    by_cases hid : it.id = p.id
    · simp only [updateFirst, if_pos hid, Option.some_inj] at h
      subst h
      simp [bumpItem]
    · simp only [updateFirst, if_neg hid] at h
      rcases hrec : updateFirst p q rest with _ | l2
      · rw [hrec] at h; simp at h
      · rw [hrec] at h
        simp only [Option.map_some', Option.some_inj] at h
        subst h
        simp [ih l2 hrec]

theorem updateFirst_mem (p : Product) (q : ℚ) :
    ∀ items l : List CartItem, updateFirst p q items = some l →
      ∀ x ∈ l, x ∈ items ∨ ∃ it ∈ items, it.id = p.id ∧ x = bumpItem p q it := by
  intro items
  induction items with
  | nil => intro l h; simp [updateFirst] at h
  | cons it rest ih =>
    intro l h x hx
    by_cases hid : it.id = p.id
    · simp only [updateFirst, if_pos hid, Option.some_inj] at h
      subst h
      rcases List.mem_cons.mp hx with hx1 | hx2
      · exact Or.inr ⟨it, by simp, hid, hx1⟩
      · exact Or.inl (by simp [hx2])
    · simp only [updateFirst, if_neg hid] at h
      rcases hrec : updateFirst p q rest with _ | l2
      · rw [hrec] at h; simp at h
      · rw [hrec] at h
        simp only [Option.map_some', Option.some_inj] at h
        subst h
        rcases List.mem_cons.mp hx with hx1 | hx2
        · exact Or.inl (by simp [hx1])
        · rcases ih l2 hrec x hx2 with h1 | ⟨y, hy, hyid, hyx⟩
          · exact Or.inl (by simp [h1])
          · exact Or.inr ⟨y, by simp [hy], hyid, hyx⟩

theorem updateFirst_decomp (p : Product) (q : ℚ) :
    ∀ (l1 : List CartItem) (it : CartItem) (l2 : List CartItem),
      (∀ x ∈ l1, x.id ≠ p.id) → it.id = p.id →
      updateFirst p q (l1 ++ it :: l2) = some (l1 ++ bumpItem p q it :: l2) := by
  intro l1
  induction l1 with
  | nil => intro it l2 _ hit; simp [updateFirst, hit]
  | cons y ys ih =>
    intro it l2 h hit
    have hy : y.id ≠ p.id := h y (by simp)
    simp [updateFirst, hy, ih it l2 (fun x hx => h x (by simp [hx])) hit]

theorem updateFirst_eq_none (p : Product) (q : ℚ) :
    ∀ items : List CartItem, updateFirst p q items = none →
      ∀ it ∈ items, it.id ≠ p.id := by
  intro items
  induction items with
  | nil => intro _ it hit; simp at hit
  | cons y rest ih =>
    intro h it hit
    by_cases hy : y.id = p.id
    · simp [updateFirst, hy] at h
    · simp only [updateFirst, if_neg hy] at h
      rcases List.mem_cons.mp hit with h1 | h2
      · subst h1; exact hy
      · exact ih (Option.map_eq_none.mp h) it h2

theorem saveCartToStorage_items (s : CartState) :
    (saveCartToStorage s).items = s.items := by
  unfold saveCartToStorage
  cases h : s.storage <;> rfl

/-- Sample product used in concrete test vectors. -/
def mkProduct (i : ℕ) (price : ℚ) : Product :=
  { id := i, title := "item", price := price, description := "", category := ""
    image := "", rating := none }

/-! ### Claim C2 -/

/-- Counterexample input for C2: a cart holding the id-1 product at price 5,
to which the id-1 product is re-added at price 7. -/
def c2State : CartState :=
  { items := [{ id := 1, product := mkProduct 1 5, quantity := 1, lineTotal := 5 }]
    storage := .stored none }

/-- C2 counterexample: `addToCart` with a product whose id already exists but
whose price differs from the stored snapshot recomputes `lineTotal` from the
*argument's* price while keeping the old product snapshot, so the resulting
item violates `lineTotal = stored product's price * quantity`
(got `2 * 7 = 14`, invariant demands `2 * 5 = 10`). -/
theorem c2_invariant_broken_by_price_mismatch :
    CartInv c2State.items ∧
    (addToCart c2State (mkProduct 1 7) 1).items =
      [{ id := 1, product := mkProduct 1 5, quantity := 2, lineTotal := 14 }] ∧
    ¬ CartInv (addToCart c2State (mkProduct 1 7) 1).items := by
  have hitems : (addToCart c2State (mkProduct 1 7) 1).items =
      [{ id := 1, product := mkProduct 1 5, quantity := 2, lineTotal := 14 }] := by
    simp only [addToCart, c2State, updateFirst, bumpItem, mkProduct,
      saveCartToStorage_items]
    norm_num
  refine ⟨⟨by simp [c2State], ?_⟩, hitems, ?_⟩
  · intro it hit
    simp only [c2State, List.mem_singleton] at hit
    subst hit
    refine ⟨by norm_num, by norm_num, ?_⟩
    show (5 : ℚ) = (mkProduct 1 5).price * 1
    simp [mkProduct]
  · intro hinv
    rw [hitems] at hinv
    have h := (hinv.2 { id := 1, product := mkProduct 1 5, quantity := 2, lineTotal := 14 }
      (by simp)).2.2
    simp only [mkProduct] at h
    norm_num at h

/-- C2 (amended): every CartService operation preserves the cart invariant,
with `addToCart` restricted to an integral quantity `≥ 1` and to a product
argument whose price agrees with the stored snapshot whenever an item with
the same id already exists, and `updateQuantity` restricted to an integral
quantity. -/
theorem c2_cart_operations_preserve_invariant :
    (∀ (s : CartState) (p : Product) (q : ℚ),
      CartInv s.items → q.den = 1 → 1 ≤ q →
      (∀ it ∈ s.items, it.id = p.id → it.product.price = p.price) →
      CartInv (addToCart s p q).items) ∧
    (∀ (s : CartState) (productId : ℕ) (q : ℚ),
      CartInv s.items → q.den = 1 →
      CartInv (updateQuantity s productId q).items) ∧
    (∀ (s : CartState) (productId : ℕ),
      CartInv s.items → CartInv (removeFromCart s productId).items) ∧
    (∀ s : CartState, CartInv (clearCart s).items) := by
  have hremove : ∀ (s : CartState) (productId : ℕ),
      CartInv s.items → CartInv (removeFromCart s productId).items := by
    intro s productId hinv
    obtain ⟨hnodup, hprops⟩ := hinv
    have hitems : (removeFromCart s productId).items =
        s.items.filter (fun it => !(it.id == productId)) := by
      unfold removeFromCart
      rw [saveCartToStorage_items]
    rw [hitems]
    constructor
    · exact List.Nodup.sublist (List.Sublist.map _ (List.filter_sublist _)) hnodup
    · intro it hit
      exact hprops it (List.mem_of_mem_filter hit)
  refine ⟨?_, ?_, hremove, ?_⟩
  · intro s p q hinv hden hq hprice
    obtain ⟨hnodup, hprops⟩ := hinv
    unfold addToCart
    rcases hup : updateFirst p q s.items with _ | l
    · rw [saveCartToStorage_items]
      have hids : ∀ it ∈ s.items, it.id ≠ p.id := updateFirst_eq_none p q s.items hup
      constructor
      · rw [List.map_append]
        refine List.Nodup.append hnodup (by simp) ?_
        intro a ha hb
        simp only [List.mem_map] at ha
        obtain ⟨it, hit, hita⟩ := ha
        simp only [List.map_cons, List.map_nil, List.mem_singleton] at hb
        exact hids it hit (hita.trans hb)
      · intro it hit
        rcases List.mem_append.mp hit with hold | hnew
        · exact hprops it hold
        · simp only [List.mem_singleton] at hnew
          subst hnew
          exact ⟨hden, hq, rfl⟩
    · rw [saveCartToStorage_items]
      constructor
      · rw [updateFirst_ids p q s.items l hup]
        exact hnodup
      · intro x hx
        rcases updateFirst_mem p q s.items l hup x hx with hold | hbump
        · exact hprops x hold
        · obtain ⟨it, hit, hitid, hxeq⟩ := hbump
          subst hxeq
          obtain ⟨hd, h1, _⟩ := hprops it hit
          refine ⟨den_one_add hd hden, ?_, ?_⟩
          · have hq0 : (0 : ℚ) ≤ q := le_trans zero_le_one hq
            calc (1 : ℚ) ≤ it.quantity := h1
              _ ≤ it.quantity + q := le_add_of_nonneg_right hq0
          · show (it.quantity + q) * p.price = it.product.price * (it.quantity + q)
            rw [hprice it hit hitid, mul_comm]
  · intro s productId q hinv hden
    unfold updateQuantity
    by_cases hq : q ≤ 0
    · rw [if_pos hq]
      exact hremove s productId hinv
    · rw [if_neg hq]
      obtain ⟨hnodup, hprops⟩ := hinv
      rw [saveCartToStorage_items]
      constructor
      · rw [List.map_map]
        have hcomp : ((fun it : CartItem => it.id) ∘ fun it =>
            if it.id = productId then
              { it with quantity := q, lineTotal := it.product.price * q }
            else it) = fun it : CartItem => it.id := by
          funext it
          by_cases h : it.id = productId <;> simp [h]
        rw [hcomp]
        exact hnodup
      · intro x hx
        simp only [List.mem_map] at hx
        obtain ⟨it, hit, hxeq⟩ := hx
        by_cases h : it.id = productId
        · rw [if_pos h] at hxeq
          subst hxeq
          exact ⟨hden, den_one_pos_one_le hden (lt_of_not_le hq), rfl⟩
        · rw [if_neg h] at hxeq
          subst hxeq
          exact hprops it hit
  · intro s
    have h : (clearCart s).items = [] := by
      unfold clearCart
      rw [saveCartToStorage_items]
    rw [h]
    exact ⟨List.nodup_nil, by intro it hit; simp at hit⟩

/-- Empty cart over available, empty storage. -/
def emptyCart : CartState :=
  { items := [], storage := .stored none }

/-- Witness for C2: the amended invariant preservation applied to a concrete
`addToCart` on the empty cart. -/
theorem c2_cart_operations_preserve_invariant_witness :
    (CartInv emptyCart.items ∧ (1 : ℚ).den = 1 ∧ (1 : ℚ) ≤ 1 ∧
      (∀ it ∈ emptyCart.items, it.id = (mkProduct 2 3).id →
        it.product.price = (mkProduct 2 3).price)) ∧
    CartInv (addToCart emptyCart (mkProduct 2 3) 1).items := by
  have h1 : CartInv emptyCart.items := ⟨by simp [emptyCart], by simp [emptyCart]⟩
  have h2 : (1 : ℚ).den = 1 := by norm_num
  have h3 : (1 : ℚ) ≤ 1 := le_refl 1
  have h4 : ∀ it ∈ emptyCart.items, it.id = (mkProduct 2 3).id →
      it.product.price = (mkProduct 2 3).price := by simp [emptyCart]
  exact ⟨⟨h1, h2, h3, h4⟩,
    c2_cart_operations_preserve_invariant.1 emptyCart (mkProduct 2 3) 1 h1 h2 h3 h4⟩

theorem saveCartToStorage_storage (s : CartState) (h : s.storage ≠ .unavailable) :
    (saveCartToStorage s).storage = .stored (some (.data s.items)) := by
  unfold saveCartToStorage
  cases hs : s.storage with
  | unavailable => exact absurd hs h
  | stored b => rfl

/-! ### Claim C7 -/

/-- The `P = {id:3, price:9.99}` product of the spec's cart-merge test vector. -/
def prodP : Product := mkProduct 3 (999 / 100)

/-- C7: `addToCart` merges into the existing item for the product's id
(quantity increased by `q`, lineTotal recomputed) or appends a new item with
quantity `q`; the spec's concrete vector `add(P,1); add(P,2)` with
`P = {id:3, price:9.99}` yields a single item with quantity 3 and lineTotal
29.97; and every `addToCart` persists the updated collection (storage being
available; an unavailable storage throw is caught and logged per §4.3). -/
theorem c7_addToCart_merge_append_persist :
    (∀ (s : CartState) (p : Product) (q : ℚ),
      (∀ it ∈ s.items, it.id ≠ p.id) →
      (addToCart s p q).items =
        s.items ++ [{ id := p.id, product := p, quantity := q,
                      lineTotal := p.price * q }]) ∧
    (∀ (s : CartState) (p : Product) (q : ℚ) (l1 : List CartItem) (it : CartItem)
        (l2 : List CartItem),
      s.items = l1 ++ it :: l2 → (∀ x ∈ l1, x.id ≠ p.id) → it.id = p.id →
      (addToCart s p q).items = l1 ++ bumpItem p q it :: l2) ∧
    (∀ (s : CartState) (p : Product) (q : ℚ), s.storage ≠ .unavailable →
      (addToCart s p q).storage = .stored (some (.data (addToCart s p q).items))) ∧
    ((addToCart (addToCart emptyCart prodP 1) prodP 2).items =
      [{ id := 3, product := prodP, quantity := 3, lineTotal := 2997 / 100 }]) ∧
    ((addToCart (addToCart emptyCart prodP 1) prodP 2).storage =
      .stored (some (.data
        [{ id := 3, product := prodP, quantity := 3, lineTotal := 2997 / 100 }]))) := by
  have hconcrete : (addToCart (addToCart emptyCart prodP 1) prodP 2).items =
      [{ id := 3, product := prodP, quantity := 3, lineTotal := 2997 / 100 }] := by
    simp only [emptyCart, addToCart, updateFirst, bumpItem, saveCartToStorage, prodP,
      mkProduct]
    norm_num
  refine ⟨?_, ?_, ?_, hconcrete, ?_⟩
  · intro s p q h
    simp only [addToCart, updateFirst_none p q s.items h, saveCartToStorage_items]
  · intro s p q l1 it l2 hs h hit
    simp only [addToCart, hs, updateFirst_decomp p q l1 it l2 h hit,
      saveCartToStorage_items]
  · intro s p q hst
    show (saveCartToStorage _).storage = .stored (some (.data (saveCartToStorage _).items))
    rw [saveCartToStorage_items, saveCartToStorage_storage]
    exact hst
  · rw [show (addToCart (addToCart emptyCart prodP 1) prodP 2).storage =
        .stored (some (.data (addToCart (addToCart emptyCart prodP 1) prodP 2).items))
      from ?_, hconcrete]
    show (saveCartToStorage _).storage = .stored (some (.data (saveCartToStorage _).items))
    rw [saveCartToStorage_items, saveCartToStorage_storage]
    show (addToCart emptyCart prodP 1).storage ≠ .unavailable
    show (saveCartToStorage _).storage ≠ .unavailable
    rw [saveCartToStorage_storage]
    · intro h; cases h
    · show StorageState.stored none ≠ .unavailable
      intro h; cases h

/-- C7 counterexample: when durable storage is unavailable (its `setItem`
throws), `addToCart` catches the failure and persists nothing — the updated
collection is held in memory only, against the claim that *every* `addToCart`
call persists the updated collection to durable storage. -/
theorem c7_unavailable_storage_not_persisted :
    (addToCart { items := [], storage := .unavailable } prodP 1).items =
      [{ id := 3, product := prodP, quantity := 1, lineTotal := prodP.price * 1 }] ∧
    (addToCart { items := [], storage := .unavailable } prodP 1).storage =
      .unavailable := by
  constructor
  · simp [addToCart, updateFirst, saveCartToStorage, prodP, mkProduct]
  · rfl

/-- Witness for C7: the append case, the merge case, and persistence applied
at concrete inputs. -/
theorem c7_addToCart_merge_append_persist_witness :
    ((∀ it ∈ emptyCart.items, it.id ≠ prodP.id) ∧
      (addToCart emptyCart prodP 1).items =
        [{ id := 3, product := prodP, quantity := 1, lineTotal := prodP.price * 1 }]) ∧
    (emptyCart.storage ≠ .unavailable ∧
      (addToCart emptyCart prodP 1).storage =
        .stored (some (.data (addToCart emptyCart prodP 1).items))) := by
  have h : ∀ it ∈ emptyCart.items, it.id ≠ prodP.id := by simp [emptyCart]
  have hst : emptyCart.storage ≠ .unavailable := by
    show StorageState.stored none ≠ .unavailable
    intro h; cases h
  refine ⟨⟨h, ?_⟩, hst, c7_addToCart_merge_append_persist.2.2.1 emptyCart prodP 1 hst⟩
  have := c7_addToCart_merge_append_persist.1 emptyCart prodP 1 h
  rw [this]
  simp [emptyCart, prodP, mkProduct]

/-! ### Claim C8 -/

/-- C8: on construction the cart loads the persisted collection, always
recomputing each item's `lineTotal` as `product.price * quantity` (a stored
`lineTotal` of 999 against price 2 and quantity 3 heals to 6), and both an
unavailable storage and a corrupt blob degrade to the empty cart with no
error propagated (the loader is total). -/
theorem c8_load_recomputes_and_degrades :
    (∀ st : StorageState, (initCart st).items = loadCartFromStorage st) ∧
    (∀ l : List CartItem,
      loadCartFromStorage (.stored (some (.data l))) =
        l.map (fun it => { it with lineTotal := it.product.price * it.quantity })) ∧
    loadCartFromStorage .unavailable = [] ∧
    loadCartFromStorage (.stored (some .corrupt)) = [] ∧
    loadCartFromStorage (.stored none) = [] ∧
    (initCart (.stored (some (.data
        [{ id := 3, product := mkProduct 3 2, quantity := 3, lineTotal := 999 }])))).items =
      [{ id := 3, product := mkProduct 3 2, quantity := 3, lineTotal := 6 }] := by
  refine ⟨fun st => rfl, fun l => rfl, rfl, rfl, rfl, ?_⟩
  show List.map _ _ = _
  simp only [List.map_cons, List.map_nil, mkProduct]
  norm_num

/-! ### Claim C9 -/

theorem foldl_add_eq_sum (f : CartItem → ℚ) :
    ∀ (l : List CartItem) (a : ℚ),
      l.foldl (fun acc it => acc + f it) a = a + (l.map f).sum := by
  intro l
  induction l with
  | nil => intro a; simp
  | cons it rest ih =>
    intro a
    simp only [List.foldl_cons, List.map_cons, List.sum_cons, ih (a + f it)]
    ring

/-- C9: the cart summary is a pure function of the item collection:
`subtotal = Σ lineTotal`, `shipping = 0`, `total = subtotal + shipping`,
`itemCount = Σ quantity`; the spec's vector with lineTotals 10 and 5.5 gives
`{subtotal := 15.5, shipping := 0, total := 15.5, itemCount := 2}`. -/
theorem c9_summary_derivation :
    (∀ items : List CartItem,
      summary items =
        { subtotal := (items.map (fun it => it.lineTotal)).sum
          shipping := 0
          total := (items.map (fun it => it.lineTotal)).sum + 0
          itemCount := (items.map (fun it => it.quantity)).sum }) ∧
    summary [{ id := 1, product := mkProduct 1 10, quantity := 1, lineTotal := 10 },
             { id := 2, product := mkProduct 2 (11/2), quantity := 1, lineTotal := 11/2 }] =
      { subtotal := 31/2, shipping := 0, total := 31/2, itemCount := 2 } := by
  have hgen : ∀ items : List CartItem,
      summary items =
        { subtotal := (items.map (fun it => it.lineTotal)).sum
          shipping := 0
          total := (items.map (fun it => it.lineTotal)).sum + 0
          itemCount := (items.map (fun it => it.quantity)).sum } := by
    intro items
    unfold summary
    rw [foldl_add_eq_sum, foldl_add_eq_sum]
    simp [zero_add]
  refine ⟨hgen, ?_⟩
  rw [hgen]
  simp only [List.map_cons, List.map_nil, List.sum_cons, List.sum_nil]
  norm_num

/-! ### Claims C3 and C5 -/

/-- Service state with a populated unlimited-products cache (as after one
completed unlimited fetch) and an idle loading broadcast. -/
def psCached : PSState :=
  { loading := .IDLE, error := none, productsCache := some 0, categoriesCache := none
    nextReq := 1, requests := [.allProducts none] }

/-- C3 counterexample: calling `getProducts` with the explicit limit `0`
returns the cached unlimited observable unchanged — no fresh request is
issued and the cache is reused — because `!limit` is `true` for the falsy
limit `0`. -/
theorem c3_limit_zero_reuses_cache :
    getProducts (some 0) psCached = (0, psCached) := by
  rfl

/-- C3 (amended): unlimited calls share one underlying request (a prior
unlimited call in flight or completed makes later unlimited calls return the
same handle with no new request; a first unlimited call issues exactly one
request and caches it), and every call with an explicit *nonzero* limit
issues a fresh request that neither reuses nor populates the unlimited
cache. -/
theorem c3_cache_sharing_and_limit_bypass :
    (∀ (s : PSState) (c : ℕ), s.productsCache = some c → getProducts none s = (c, s)) ∧
    (∀ s : PSState, s.productsCache = none →
      (getProducts none s).1 = s.nextReq ∧
      (getProducts none s).2.productsCache = some s.nextReq ∧
      (getProducts none s).2.requests = s.requests ++ [.allProducts none] ∧
      getProducts none (getProducts none s).2 = (s.nextReq, (getProducts none s).2)) ∧
    (∀ (s : PSState) (q : ℚ), q ≠ 0 →
      (getProducts (some q) s).1 = s.nextReq ∧
      (getProducts (some q) s).2.requests = s.requests ++ [.allProducts (some q)] ∧
      (getProducts (some q) s).2.productsCache = s.productsCache) ∧
    (∀ (s : PSState) (q : ℚ) (c : ℕ), q ≠ 0 → s.productsCache = some c →
      c < s.nextReq → (getProducts (some q) s).1 ≠ c) := by
  have hshare : ∀ (s : PSState) (c : ℕ), s.productsCache = some c →
      getProducts none s = (c, s) := by
    intro s c h
    simp [getProducts, h, numTruthy]
  have hlimit : ∀ (s : PSState) (q : ℚ), q ≠ 0 →
      (getProducts (some q) s).1 = s.nextReq ∧
      (getProducts (some q) s).2.requests = s.requests ++ [.allProducts (some q)] ∧
      (getProducts (some q) s).2.productsCache = s.productsCache := by
    intro s q hq
    have ht : numTruthy (some q) = true := by simp [numTruthy, hq]
    cases hc : s.productsCache <;> simp [getProducts, hc, ht]
  refine ⟨hshare, ?_, hlimit, ?_⟩
  · intro s h
    have h1 : getProducts none s =
        (s.nextReq, { s with
          loading := .LOADING
          nextReq := s.nextReq + 1
          requests := s.requests ++ [.allProducts none]
          productsCache := some s.nextReq }) := by
      simp [getProducts, h, numTruthy]
    rw [h1]
    exact ⟨rfl, rfl, rfl, hshare _ s.nextReq rfl⟩
  · intro s q c hq hc hlt
    rw [(hlimit s q hq).1]
    omega

/-- Witness for C3: cache sharing, the first-call/fresh-call behaviours, and
limit bypass applied at concrete states. -/
theorem c3_cache_sharing_and_limit_bypass_witness :
    (psCached.productsCache = some 0 ∧ getProducts none psCached = (0, psCached)) ∧
    ((5 : ℚ) ≠ 0 ∧ (getProducts (some 5) psCached).2.productsCache = psCached.productsCache) := by
  have h5 : (5 : ℚ) ≠ 0 := by norm_num
  exact ⟨⟨rfl, c3_cache_sharing_and_limit_bypass.1 psCached 0 rfl⟩,
    h5, (c3_cache_sharing_and_limit_bypass.2.2.1 psCached 5 h5).2.2⟩

/-- C5 counterexample: a `getProducts` call served from the populated
unlimited cache does not set the shared loading broadcast to `Loading` — the
state (loading `IDLE`) is returned untouched, against the claim that every
fetch operation sets `Loading` on start. -/
theorem c5_cached_call_skips_loading :
    (getProducts none psCached).2.loading = .IDLE ∧ psCached.loading = .IDLE := by
  exact ⟨rfl, rfl⟩

/-- C5 (amended): every fetch operation that is not served from a populated
cache sets the shared loading broadcast to `Loading` on start; on success the
broadcast becomes `Success` and the error broadcast is cleared; on failure
the broadcast becomes `Error`, the error broadcast carries the classified
`ApiError`, and the same error is propagated to the caller; classification is
`NETWORK_ERROR` for transport failure, `NOT_FOUND` with message
"Product not found." for 404, `SERVER_ERROR` for 500, and `UNKNOWN_ERROR`
with the server-supplied message when present otherwise. -/
theorem c5_loading_error_broadcast_discipline :
    (∀ (s : PSState) (limit : Option ℚ),
      s.productsCache = none ∨ numTruthy limit = true →
      (getProducts limit s).2.loading = .LOADING) ∧
    (∀ (s : PSState) (id : ℕ), (getProductById id s).2.loading = .LOADING) ∧
    (∀ s : PSState, s.categoriesCache = none → (getCategories s).2.loading = .LOADING) ∧
    (∀ (s : PSState) (category : String),
      (getProductsByCategory category s).2.loading = .LOADING) ∧
    (∀ (s : PSState) (payload : List Product),
      resolveFetch s (.ok payload) =
        ({ s with loading := .SUCCESS, error := none }, .ok payload)) ∧
    (∀ (s : PSState) (f : HttpFailure),
      resolveFetch (α := List Product) s (.error f) =
        ({ s with loading := .ERROR, error := some (handleError f) },
          .error (handleError f))) ∧
    (handleError .clientEvent =
      { message := "Network error occurred. Please check your connection."
        status := none, code := .NETWORK_ERROR }) ∧
    (∀ m : Option String, handleError (.response 404 m) =
      { message := "Product not found.", status := some 404, code := .NOT_FOUND }) ∧
    (∀ m : Option String, handleError (.response 500 m) =
      { message := "Server error. Please try again later."
        status := some 500, code := .SERVER_ERROR }) ∧
    (∀ (st : ℕ) (m : String), st ≠ 404 → st ≠ 500 →
      handleError (.response st (some m)) =
        { message := m, status := some st, code := .UNKNOWN_ERROR }) ∧
    (∀ st : ℕ, st ≠ 404 → st ≠ 500 →
      handleError (.response st none) =
        { message := "An unexpected error occurred."
          status := some st, code := .UNKNOWN_ERROR }) := by
  have hunknown : ∀ (st : ℕ) (m : Option String), st ≠ 404 → st ≠ 500 →
      handleError (.response st m) =
        { message := m.getD "An unexpected error occurred."
          status := some st, code := .UNKNOWN_ERROR } := by
    intro st m h404 h500
    unfold handleError
    split
    · rename_i heq; cases heq
    · rename_i heq; exact absurd (by cases heq; rfl) h404
    · rename_i heq; exact absurd (by cases heq; rfl) h500
    · rename_i heq
      injection heq with ha hb
      subst ha
      subst hb
      rfl
  refine ⟨?_, fun s id => rfl, ?_, fun s category => rfl,
    fun s payload => rfl, fun s f => rfl, rfl, fun m => rfl, fun m => rfl,
    ?_, ?_⟩
  · intro s limit h
    rcases h with h | h
    · cases hl : numTruthy limit <;> simp [getProducts, h, hl]
    · cases hc : s.productsCache <;> simp [getProducts, hc, h]
  · intro s h
    simp [getCategories, h]
  · intro st m h404 h500
    exact hunknown st (some m) h404 h500
  · intro st h404 h500
    exact hunknown st none h404 h500

/-- Witness for C5: the broadcast discipline applied at a concrete fresh
state and concrete failures. -/
theorem c5_loading_error_broadcast_discipline_witness :
    (psCached.productsCache = none ∨ numTruthy (some 5) = true) ∧
    (getProducts (some 5) psCached).2.loading = .LOADING ∧
    ((404 : ℕ) ≠ 404 → False) ∧
    ((503 : ℕ) ≠ 404 ∧ (503 : ℕ) ≠ 500 ∧
      handleError (.response 503 (some "upstream down")) =
        { message := "upstream down", status := some 503, code := .UNKNOWN_ERROR }) := by
  have ht : numTruthy (some (5 : ℚ)) = true := by
    simp [numTruthy]
  have h404 : (503 : ℕ) ≠ 404 := by norm_num
  have h500 : (503 : ℕ) ≠ 500 := by norm_num
  exact ⟨Or.inr ht,
    c5_loading_error_broadcast_discipline.1 psCached (some 5) (Or.inr ht),
    fun h => h rfl,
    h404, h500,
    c5_loading_error_broadcast_discipline.2.2.2.2.2.2.2.2.2.1 503 "upstream down" h404 h500⟩

/-! ### Claim C6 -/

/-- Modelled from the spec's words, amended for JavaScript truthiness of the
`limit` guard: `fetchAll(limit)` when limit is set and nonzero. -/
def specLimitRule (f : ProductFilters) : SourceCall :=
  match f.limit with
  | some l => if l ≠ 0 then .allLimited l else .allUnlimited
  | none => .allUnlimited

/-- Modelled from the spec's words, amended for JavaScript truthiness:
`fetchByCategory(category)` when category is set *and nonempty*, else
`fetchAll(limit)` when limit is set *and nonzero*, else `fetchAll()`. -/
def specSourceRuleAmended (f : ProductFilters) : SourceCall :=
  match f.category with
  | some c => if c ≠ "" then .byCategory c else specLimitRule f
  | none => specLimitRule f

theorem chooseSource_eq_amended_rule (f : ProductFilters) :
    chooseSource f = specSourceRuleAmended f := by
  unfold chooseSource specSourceRuleAmended specLimitRule
  cases hc : f.category with
  | none =>
    cases hl : f.limit with
    | none => simp [strTruthy, numTruthy, hc, hl]
    | some l =>
      by_cases hl0 : l = 0 <;> simp [strTruthy, numTruthy, hc, hl, hl0]
  | some c =>
    by_cases hce : c = ""
    · cases hl : f.limit with
      | none => simp [strTruthy, numTruthy, hc, hce, hl]
      | some l =>
        by_cases hl0 : l = 0 <;> simp [strTruthy, numTruthy, hc, hce, hl, hl0]
    · simp [strTruthy, numTruthy, hc, hce]

theorem sortProducts_perm (l : List Product) (sb : SortField) (ord : SortOrder) :
    List.Perm (sortProducts l sb ord) l := by
  cases sb <;> cases ord <;> simp only [sortProducts] <;> exact sortByKey_perm _ l

theorem filter_sortByKey_of_eq {a b : Type} [LinearOrder b] (key : a → b) (k : b)
    (p : a → Bool) (hp : ∀ y, p y = decide (key y = k)) (l : List a) :
    (sortByKey key l).filter p = l.filter p := by
  have hfun : p = fun y => decide (key y = k) := funext hp
  rw [hfun]
  exact filter_sortByKey key k l

theorem sortProducts_sorted_price (l : List Product) :
    List.Sorted (fun a b : Product => a.price ≤ b.price) (sortProducts l .price .asc) ∧
    List.Sorted (fun a b : Product => b.price ≤ a.price) (sortProducts l .price .desc) := by
  constructor <;> simp only [sortProducts]
  · exact sortByKey_sorted (fun p : Product => p.price) l
  · exact sortByKey_sorted (fun p : Product => OrderDual.toDual p.price) l

theorem sortProducts_sorted_title (l : List Product) :
    List.Sorted (fun a b : Product => titleKey a ≤ titleKey b) (sortProducts l .title .asc) ∧
    List.Sorted (fun a b : Product => titleKey b ≤ titleKey a) (sortProducts l .title .desc) := by
  constructor <;> simp only [sortProducts]
  · exact sortByKey_sorted titleKey l
  · exact sortByKey_sorted (fun p : Product => OrderDual.toDual (titleKey p)) l

theorem sortProducts_sorted_rating (l : List Product) :
    List.Sorted (fun a b : Product => ratingKey a ≤ ratingKey b) (sortProducts l .rating .asc) ∧
    List.Sorted (fun a b : Product => ratingKey b ≤ ratingKey a) (sortProducts l .rating .desc) := by
  constructor <;> simp only [sortProducts]
  · exact sortByKey_sorted ratingKey l
  · exact sortByKey_sorted (fun p : Product => OrderDual.toDual (ratingKey p)) l

theorem sortProducts_stable_price (l : List Product) (k : ℚ) (ord : SortOrder) :
    (sortProducts l .price ord).filter (fun p => decide (p.price = k)) =
      l.filter (fun p => decide (p.price = k)) := by
  cases ord <;> simp only [sortProducts]
  · exact filter_sortByKey_of_eq (fun p : Product => p.price) k _
      (fun y => decide_eq_decide.mpr Iff.rfl) l
  · exact filter_sortByKey_of_eq (fun p : Product => OrderDual.toDual p.price)
      (OrderDual.toDual k) _
      (fun y => decide_eq_decide.mpr OrderDual.toDual_inj.symm) l

theorem sortProducts_stable_title (l : List Product) (k : String) (ord : SortOrder) :
    (sortProducts l .title ord).filter (fun p => decide (titleKey p = k)) =
      l.filter (fun p => decide (titleKey p = k)) := by
  cases ord <;> simp only [sortProducts]
  · exact filter_sortByKey_of_eq titleKey k _
      (fun y => decide_eq_decide.mpr Iff.rfl) l
  · exact filter_sortByKey_of_eq (fun p : Product => OrderDual.toDual (titleKey p))
      (OrderDual.toDual k) _
      (fun y => decide_eq_decide.mpr OrderDual.toDual_inj.symm) l

theorem sortProducts_stable_rating (l : List Product) (k : ℚ) (ord : SortOrder) :
    (sortProducts l .rating ord).filter (fun p => decide (ratingKey p = k)) =
      l.filter (fun p => decide (ratingKey p = k)) := by
  cases ord <;> simp only [sortProducts]
  · exact filter_sortByKey_of_eq ratingKey k _
      (fun y => decide_eq_decide.mpr Iff.rfl) l
  · exact filter_sortByKey_of_eq (fun p : Product => OrderDual.toDual (ratingKey p))
      (OrderDual.toDual k) _
      (fun y => decide_eq_decide.mpr OrderDual.toDual_inj.symm) l

/-- C6 counterexample: with `category` set to the empty string, the code's
guard `if (category)` is falsy and the composer requests the unlimited
`fetchAll()`, while the claim's rule "fetchByCategory(category) if category
is set" demands `fetchByCategory("")`. -/
theorem c6_empty_category_routes_to_fetchAll :
    chooseSource { category := some "" } = .allUnlimited ∧
    specSourceRule { category := some "" } = .byCategory "" :=
  ⟨rfl, rfl⟩

/-- C6 (amended): the server-side source is chosen by the rule
`fetchByCategory(category)` if category is set and nonempty, else
`fetchAll(limit)` if limit is set and nonzero, else `fetchAll()`; the
obtained list is then refined exactly in the spec's fixed order (search
filter, inclusive price bounds, sort), and the sort is a stable permutation
ordered by the selected key in the selected direction with ties preserving
prior relative order. -/
theorem c6_source_choice_and_refinement :
    (∀ f : ProductFilters, chooseSource f = specSourceRuleAmended f) ∧
    (∀ (products : List Product) (f : ProductFilters),
      applyClientSideFilters products f = specRefine products f) ∧
    (∀ (l : List Product) (sb : SortField) (ord : SortOrder),
      List.Perm (sortProducts l sb ord) l) ∧
    (∀ l : List Product,
      List.Sorted (fun a b : Product => a.price ≤ b.price) (sortProducts l .price .asc) ∧
      List.Sorted (fun a b : Product => b.price ≤ a.price) (sortProducts l .price .desc) ∧
      List.Sorted (fun a b : Product => titleKey a ≤ titleKey b)
        (sortProducts l .title .asc) ∧
      List.Sorted (fun a b : Product => titleKey b ≤ titleKey a)
        (sortProducts l .title .desc) ∧
      List.Sorted (fun a b : Product => ratingKey a ≤ ratingKey b)
        (sortProducts l .rating .asc) ∧
      List.Sorted (fun a b : Product => ratingKey b ≤ ratingKey a)
        (sortProducts l .rating .desc)) ∧
    (∀ (l : List Product) (ord : SortOrder),
      (∀ k : ℚ, (sortProducts l .price ord).filter (fun p => decide (p.price = k)) =
        l.filter (fun p => decide (p.price = k))) ∧
      (∀ k : String, (sortProducts l .title ord).filter (fun p => decide (titleKey p = k)) =
        l.filter (fun p => decide (titleKey p = k))) ∧
      (∀ k : ℚ, (sortProducts l .rating ord).filter (fun p => decide (ratingKey p = k)) =
        l.filter (fun p => decide (ratingKey p = k)))) :=
  ⟨chooseSource_eq_amended_rule,
    applyClientSideFilters_eq_specRefine,
    sortProducts_perm,
    fun l => ⟨(sortProducts_sorted_price l).1, (sortProducts_sorted_price l).2,
      (sortProducts_sorted_title l).1, (sortProducts_sorted_title l).2,
      (sortProducts_sorted_rating l).1, (sortProducts_sorted_rating l).2⟩,
    fun l ord => ⟨fun k => sortProducts_stable_price l k ord,
      fun k => sortProducts_stable_title l k ord,
      fun k => sortProducts_stable_rating l k ord⟩⟩

/-! ### Claim C1 -/

theorem chain_dedupRefAux :
    ∀ (l : List FormEv) (prev : FormEv),
      List.Chain' (fun a b : FormEv => a.ref ≠ b.ref) (prev :: dedupRefAux prev l) := by
  intro l
  induction l with
  | nil => intro prev; simp [dedupRefAux]
  | cons e rest ih =>
    intro prev
    by_cases h : (e.ref == prev.ref) = true
    · simpa [dedupRefAux, h] using ih prev
    · have hne : prev.ref ≠ e.ref := fun heq => h (by simp [heq])
      have := ih e
      simp only [dedupRefAux, h, if_neg, Bool.false_eq_true, if_false]
      exact List.Chain'.cons hne (ih e)

/-- Form value holding only a search term, as the UI produces while typing. -/
def fvSearch (s : String) : FormValue :=
  { searchTerm := s, selectedCategory := "", sortBy := "", sortOrder := "asc" }

/-- The spec's debounce-coalescing vector: `{searchTerm:"s"}`,
`{searchTerm:"sh"}`, `{searchTerm:"shi"}` at 0ms, 100ms, 200ms — within one
300ms window — each a fresh form object. -/
def c1Input : List FormEv :=
  [{ t := 0, ref := 0, val := fvSearch "s" },
   { t := 100, ref := 1, val := fvSearch "sh" },
   { t := 200, ref := 2, val := fvSearch "shi" }]

/-- Two emissions of the *same* form value 400ms apart (outside the debounce
window), as distinct freshly-allocated objects — exactly what
`valueChanges` produces when the user retypes the same text. -/
def c1DupInput : List FormEv :=
  [{ t := 0, ref := 0, val := fvSearch "shoes" },
   { t := 400, ref := 1, val := fvSearch "shoes" }]

/-- C1 counterexample: the two emissions carry value-equal criteria, yet both
pass `distinctUntilChanged` (its default comparator is `===`, and each form
emission is a fresh object), so the value-identical second criteria *does*
trigger a second downstream fetch — the claim says it triggers none. -/
theorem c1_value_equal_criteria_not_suppressed :
    (c1DupInput.map (fun e => e.val) = [fvSearch "shoes", fvSearch "shoes"]) ∧
    downstreamFetches c1DupInput =
      [{ searchTerm := some "shoes", sortOrder := some .asc },
       { searchTerm := some "shoes", sortOrder := some .asc }] :=
  ⟨rfl, rfl⟩

/-- C1 (amended): criteria edits arriving faster than the 300ms debounce
window are coalesced so that only the state present when the window elapses
is acted upon (the spec's s/sh/shi vector yields exactly one downstream
fetch, with `searchTerm = "shi"`), and suppression of an unchanged criteria
value is by object identity (`===`), not value equality: consecutive accepted
emissions always have distinct object references. -/
theorem c1_debounce_coalescing_and_identity_dedup :
    downstreamFetches c1Input = [{ searchTerm := some "shi", sortOrder := some .asc }] ∧
    (∀ input : List FormEv,
      List.Chain' (fun a b : FormEv => a.ref ≠ b.ref) (acceptedEvents input)) := by
  refine ⟨rfl, ?_⟩
  intro input
  unfold acceptedEvents
  cases h : debounceTimeF 300 input with
  | nil => simp [distinctRefF]
  | cons e rest =>
    simp only [distinctRefF]
    exact chain_dedupRefAux rest e

/-! ### Claim C4 -/

theorem switchSurvivors_mem_ge :
    ∀ (l : List FetchEv) (k j : ℕ), j ∈ switchSurvivors k l → k ≤ j := by
  intro l
  induction l with
  | nil => intro k j h; simp [switchSurvivors] at h
  | cons e rest ih =>
    intro k j h
    cases rest with
    | nil =>
      simp only [switchSurvivors, List.mem_singleton] at h
      exact h ▸ le_refl k
    | cons e2 rest2 =>
      simp only [switchSurvivors] at h
      by_cases hc : e.t + e.dur < e2.t
      · rw [if_pos hc] at h
        rcases List.mem_cons.mp h with h1 | h2
        · exact h1 ▸ le_refl k
        · exact le_trans (Nat.le_succ k) (ih (k + 1) j h2)
      · rw [if_neg hc] at h
        exact le_trans (Nat.le_succ k) (ih (k + 1) j h)

theorem superseded_not_in_switchSurvivors :
    ∀ (l : List FetchEv) (k i : ℕ) (h1 : i + 1 < l.length),
      (l.get ⟨i + 1, h1⟩).t ≤
          (l.get ⟨i, Nat.lt_of_succ_lt h1⟩).t + (l.get ⟨i, Nat.lt_of_succ_lt h1⟩).dur →
      (k + i) ∉ switchSurvivors k l := by
  intro l
  induction l with
  | nil => intro k i h1; simp at h1
  | cons e rest ih =>
    intro k i h1 h2
    cases rest with
    | nil => simp at h1
    | cons e2 rest2 =>
      cases i with
      | zero =>
        have hnot : ¬ e.t + e.dur < e2.t := by
          have : e2.t ≤ e.t + e.dur := h2
          omega
        simp only [switchSurvivors, if_neg hnot, Nat.add_zero]
        intro hmem
        have := switchSurvivors_mem_ge (e2 :: rest2) (k + 1) k hmem
        omega
      | succ i2 =>
        have h1r : i2 + 1 < (e2 :: rest2).length := by
          simpa using Nat.lt_of_succ_lt_succ h1
        have h2r : ((e2 :: rest2).get ⟨i2 + 1, h1r⟩).t ≤
            ((e2 :: rest2).get ⟨i2, Nat.lt_of_succ_lt h1r⟩).t +
            ((e2 :: rest2).get ⟨i2, Nat.lt_of_succ_lt h1r⟩).dur := h2
        have hrec := ih (k + 1) i2 h1r h2r
        have hshift : k + (i2 + 1) = (k + 1) + i2 := by omega
        rw [hshift]
        simp only [switchSurvivors]
        by_cases hc : e.t + e.dur < e2.t
        · rw [if_pos hc]
          intro hmem
          rcases List.mem_cons.mp hmem with hk | hm
          · omega
          · exact hrec hm
        · rw [if_neg hc]
          exact hrec

/-- C4: under switch-latest, an emission superseded before its fetch resolves
never reaches the output (its index is not among the survivors), and in the
spec's scenario — criteria A at t=0 resolving at t=500, superseded by
criteria B at t=100 resolving at t=200 — only B's result is emitted, even
though A resolves after B. -/
theorem c4_switch_latest_discards_stale :
    (∀ (l : List FetchEv) (i : ℕ) (h1 : i + 1 < l.length),
      (l.get ⟨i + 1, h1⟩).t ≤
          (l.get ⟨i, Nat.lt_of_succ_lt h1⟩).t + (l.get ⟨i, Nat.lt_of_succ_lt h1⟩).dur →
      i ∉ switchSurvivors 0 l) ∧
    switchSurvivors 0 [{ t := 0, dur := 500 }, { t := 100, dur := 100 }] = [1] := by
  refine ⟨?_, rfl⟩
  intro l i h1 h2
  have := superseded_not_in_switchSurvivors l 0 i h1 h2
  simpa using this

/-- Witness for C4: the discard property applied to the spec's concrete
scenario (A superseded at t=100 while resolving only at t=500). -/
theorem c4_switch_latest_discards_stale_witness :
    (([{ t := 0, dur := 500 }, { t := 100, dur := 100 }] : List FetchEv).get
        ⟨1, by decide⟩).t ≤
      (([{ t := 0, dur := 500 }, { t := 100, dur := 100 }] : List FetchEv).get
        ⟨0, by decide⟩).t +
      (([{ t := 0, dur := 500 }, { t := 100, dur := 100 }] : List FetchEv).get
        ⟨0, by decide⟩).dur ∧
    0 ∉ switchSurvivors 0 [{ t := 0, dur := 500 }, { t := 100, dur := 100 }] :=
  ⟨by decide,
    c4_switch_latest_discards_stale.1
      [{ t := 0, dur := 500 }, { t := 100, dur := 100 }] 0 (by decide) (by decide)⟩

/-! ### Claim C10 -/

/-- C10: `applyClientSideFiltersHeap` never writes to the input array: the
copy `[...products]` and the arrays allocated by the `.filter` steps all
carry fresh ids, and the in-place `sort` targets only the current fresh
array; hence the array handed in (e.g. the one held by the
unlimited-products cache) has the same contents before and after, and the
returned array holds exactly the pure `applyClientSideFilters` result. -/
theorem c10_filters_do_not_mutate_input (h : Heap) (src : ℕ) (f : ProductFilters)
    (hsrc : src < h.next) :
    (applyClientSideFiltersHeap h src f).1.mem src = h.mem src ∧
    (applyClientSideFiltersHeap h src f).1.mem (applyClientSideFiltersHeap h src f).2 =
      applyClientSideFilters (h.mem src) f := by
  have hne0 : src ≠ h.next := by omega
  have hne1 : src ≠ h.next + 1 := by omega
  have hne2 : src ≠ h.next + 2 := by omega
  have hne3 : src ≠ h.next + 3 := by omega
  unfold applyClientSideFiltersHeap applyClientSideFilters
  by_cases hs : strTruthy f.searchTerm <;>
    rcases hmin : f.minPrice with _ | m <;>
    rcases hmax : f.maxPrice with _ | M <;>
    rcases hsb : f.sortBy with _ | sb <;>
    simp [halloc, hset, hs, hmin, hmax, hsb, hne0, hne1, hne2, hne3]

/-- Concrete one-array heap for the C10 witness. -/
def heap1 : Heap :=
  { next := 1, mem := fun i => if i = 0 then [mkProduct 1 5] else [] }

/-- Witness for C10: the frame property applied to a concrete heap and a
sorting criteria value. -/
theorem c10_filters_do_not_mutate_input_witness :
    0 < heap1.next ∧
    (applyClientSideFiltersHeap heap1 0 { sortBy := some .price }).1.mem 0 =
      heap1.mem 0 :=
  ⟨by decide,
    (c10_filters_do_not_mutate_input heap1 0 { sortBy := some .price } (by decide)).1⟩

end BinFawzi
